import Mathlib

/-!
Shallow embedding of the currency-converter component (`src/src/App.tsx`)
and proofs of the specification's claims about it.

Conventions of the embedding:
* JavaScript numbers are modelled as rationals (`ℚ`); `NaN` and an absent
  value (`undefined`) are modelled by `Option ℚ` with `none` where the
  distinction matters.
* Currency symbols stay `String`s, as in the source.
* The remote rate API response is a `RemoteResponse` value passed in
  explicitly; whether the network was consulted is returned as a `Bool`.
* Calendar dates are a `Date` structure with an explicit validity predicate;
  the `date-fns` helpers used by the source (`subDays`, `subMonths`,
  `subYears`) are embedded with their documented clamping semantics.
-/

/-- `fiatCurrencies` from App.tsx: the nine supported fiat symbols. -/
def fiatCurrencies : List String :=
  ["USD", "EUR", "GBP", "JPY", "AUD", "CAD", "CHF", "CNY", "INR"]

/-- `cryptoCurrencies` from App.tsx: the eight supported crypto symbols. -/
def cryptoCurrencies : List String :=
  ["BTC", "ETH", "USDT", "BNB", "XRP", "ADA", "DOT", "DOGE"]

/-- `cryptoBaseRates` from App.tsx: the fixed simulated USD price of each
crypto ticker.  A key absent from the record is `none` (JS `undefined`). -/
def cryptoBaseRates : String → Option ℚ :=
  fun s =>
    if s = "BTC" then some 45000
    else if s = "ETH" then some 3000
    else if s = "USDT" then some 1
    else if s = "BNB" then some 380
    else if s = "XRP" then some (1/2)
    else if s = "ADA" then some (1/2)
    else if s = "DOT" then some (7)
    else if s = "DOGE" then some (2/25)
    else none

/-- `calculateCryptoRate` from App.tsx lines 108-122.  The record lookups
`cryptoBaseRates[from]` are total in JS only because every branch guard
guarantees the key is present; `Option.getD 0` realises the lookup, and the
guards make the default unreachable. -/
def calculateCryptoRate (src dst : String) : ℚ :=
  if cryptoCurrencies.contains src && cryptoCurrencies.contains dst then
    (cryptoBaseRates src).getD 0 / (cryptoBaseRates dst).getD 0
  else if cryptoCurrencies.contains src then
    (cryptoBaseRates src).getD 0
  else if cryptoCurrencies.contains dst then
    1 / (cryptoBaseRates dst).getD 0
  else 0

/-- The JSON body of a remote rate-API reply: the HTTP success flag
(`response.ok`) and the `rates` record (`none` = key absent). -/
structure RemoteResponse where
  ok : Bool
  rates : String → Option ℚ

/-- What the single `fetch` in `fetchExchangeRate` can yield: a thrown
network error, or a response object. -/
inductive FetchOutcome where
  | netError : FetchOutcome
  | response : RemoteResponse → FetchOutcome

/-- Result of one rate resolution: a rate, or one of the three failure
modes distinguished inside `fetchExchangeRate` (network throw, the
`!response.ok` throw, and the `!rate` throw). -/
inductive RateResult where
  | ok : ℚ → RateResult
  | networkFailure : RateResult
  | fetchError : RateResult
  | rateUnavailable : RateResult
deriving DecidableEq

/-- The JS truthiness test `!rate` on `data.rates[toCurrency]`:
an absent key and a numeric `0` are both falsy. -/
def usableRate : Option ℚ → Option ℚ :=
  fun r => match r with
  | some q => if q = 0 then none else some q
  | none => none

/-- The rate-resolution core of `fetchExchangeRate` (App.tsx lines 156-176):
crypto pairs are computed locally from the table, otherwise the remote API
is consulted.  The second component records whether a network request was
issued. -/
def resolveRate (src dst : String) (net : FetchOutcome) : RateResult × Bool :=
  if cryptoCurrencies.contains src || cryptoCurrencies.contains dst then
    (.ok (calculateCryptoRate src dst), false)
  else
    match net with
    | .netError => (.networkFailure, true)
    | .response r =>
      if !r.ok then (.fetchError, true)
      else
        match usableRate (r.rates dst) with
        | none => (.rateUnavailable, true)
        | some q => (.ok q, true)

theorem cryptoBaseRates_eval :
    cryptoBaseRates "BTC" = some 45000 ∧ cryptoBaseRates "ETH" = some 3000 ∧
    cryptoBaseRates "USDT" = some 1 ∧ cryptoBaseRates "BNB" = some 380 ∧
    cryptoBaseRates "XRP" = some (1/2) ∧ cryptoBaseRates "ADA" = some (1/2) ∧
    cryptoBaseRates "DOT" = some 7 ∧ cryptoBaseRates "DOGE" = some (2/25) :=
  ⟨rfl, rfl, rfl, rfl, rfl, rfl, rfl, rfl⟩

theorem cryptoBaseRates_pos (c : String) (hc : c ∈ cryptoCurrencies) :
    0 < (cryptoBaseRates c).getD 0 := by
  fin_cases hc <;>
    simp only [cryptoBaseRates_eval.1, cryptoBaseRates_eval.2.1,
      cryptoBaseRates_eval.2.2.1, cryptoBaseRates_eval.2.2.2.1,
      cryptoBaseRates_eval.2.2.2.2.1, cryptoBaseRates_eval.2.2.2.2.2.1,
      cryptoBaseRates_eval.2.2.2.2.2.2.1, cryptoBaseRates_eval.2.2.2.2.2.2.2,
      Option.getD_some] <;> norm_num

/-- C1: for every pair with both symbols in the 8-element crypto set the
resolved rate is `baseRate[from] / baseRate[to]` with no network request;
`BTC`/`ETH` resolves to exactly `15`; every crypto self-pair resolves to
`1`. -/
theorem crypto_pair_rate (a b c : String) (net net' net'' : FetchOutcome)
    (ha : a ∈ cryptoCurrencies) (hb : b ∈ cryptoCurrencies)
    (hc : c ∈ cryptoCurrencies) :
    resolveRate a b net =
      (.ok ((cryptoBaseRates a).getD 0 / (cryptoBaseRates b).getD 0), false) ∧
    resolveRate "BTC" "ETH" net' = (.ok 15, false) ∧
    resolveRate c c net'' = (.ok 1, false) := by
  have key : ∀ (x y : String) (n : FetchOutcome),
      x ∈ cryptoCurrencies → y ∈ cryptoCurrencies →
      resolveRate x y n =
        (.ok ((cryptoBaseRates x).getD 0 / (cryptoBaseRates y).getD 0),
          false) := by
    intro x y n hx hy
    simp [resolveRate, calculateCryptoRate, hx, hy]
  refine ⟨key a b net ha hb, ?_, ?_⟩
  · rw [key "BTC" "ETH" net' (by decide) (by decide),
      cryptoBaseRates_eval.1, cryptoBaseRates_eval.2.1]
    norm_num
  · rw [key c c net'' hc hc,
      div_self (ne_of_gt (cryptoBaseRates_pos c hc))]

/-- Witness for `crypto_pair_rate` at a = BTC, b = ETH, c = ADA. -/
theorem crypto_pair_rate_witness :
    resolveRate "BTC" "ETH" .netError =
      (.ok ((cryptoBaseRates "BTC").getD 0 / (cryptoBaseRates "ETH").getD 0),
        false) ∧
    resolveRate "BTC" "ETH" .netError = (.ok 15, false) ∧
    resolveRate "ADA" "ADA" .netError = (.ok 1, false) :=
  crypto_pair_rate "BTC" "ETH" "ADA" .netError .netError .netError
    (by decide) (by decide) (by decide)

/-- C2: with exactly one crypto leg, a crypto source resolves to
`baseRate[src]` and a crypto destination to `1 / baseRate[dst]`, in both
cases without a network request. -/
theorem one_leg_crypto_rate (a b : String) (net net' : FetchOutcome)
    (ha : a ∈ cryptoCurrencies) (hb : b ∉ cryptoCurrencies) :
    resolveRate a b net = (.ok ((cryptoBaseRates a).getD 0), false) ∧
    resolveRate b a net' = (.ok (1 / (cryptoBaseRates a).getD 0), false) := by
  constructor
  · simp [resolveRate, calculateCryptoRate, ha, hb]
  · simp [resolveRate, calculateCryptoRate, ha, hb]

/-- Witness for `one_leg_crypto_rate` at a = BTC, b = USD. -/
theorem one_leg_crypto_rate_witness :
    resolveRate "BTC" "USD" .netError =
      (.ok ((cryptoBaseRates "BTC").getD 0), false) ∧
    resolveRate "USD" "BTC" .netError =
      (.ok (1 / (cryptoBaseRates "BTC").getD 0), false) :=
  one_leg_crypto_rate "BTC" "USD" .netError .netError (by decide) (by decide)

/-- C3: for a pure fiat pair the network is consulted, `fetchError` occurs
exactly when the response is not `ok`, `rateUnavailable` occurs exactly when
the successful response has no usable (non-falsy) rate for the destination,
and otherwise resolution succeeds with exactly `rates[toCurrency]`. -/
theorem fiat_pair_resolution (a b : String) (r : RemoteResponse)
    (ha : a ∉ cryptoCurrencies) (hb : b ∉ cryptoCurrencies) :
    (resolveRate a b (.response r)).2 = true ∧
    ((resolveRate a b (.response r)).1 = .fetchError ↔ r.ok = false) ∧
    ((resolveRate a b (.response r)).1 = .rateUnavailable ↔
      r.ok = true ∧ usableRate (r.rates b) = none) ∧
    (∀ q, r.ok = true → r.rates b = some q → q ≠ 0 →
      (resolveRate a b (.response r)).1 = .ok q) := by
  have hres : resolveRate a b (.response r) =
      (if !r.ok then (.fetchError, true)
       else match usableRate (r.rates b) with
         | none => (.rateUnavailable, true)
         | some q => (.ok q, true)) := by
    simp [resolveRate, ha, hb]
  refine ⟨?_, ?_, ?_, ?_⟩
  · rw [hres]
    rcases hok : r.ok with _ | _ <;> simp
    rcases usableRate (r.rates b) <;> simp
  · rw [hres]
    rcases hok : r.ok with _ | _ <;> simp
    rcases usableRate (r.rates b) <;> simp
  · rw [hres]
    rcases hok : r.ok with _ | _ <;> simp
    rcases h : usableRate (r.rates b) <;> simp [h]
  · intro q hok hq hq0
    rw [hres]
    simp [hok, usableRate, hq, hq0]

/-- Witness for `fiat_pair_resolution`: USD→EUR with a successful response
carrying `rates["EUR"] = 9/10`. -/
theorem fiat_pair_resolution_witness :
    (resolveRate "USD" "EUR"
      (.response ⟨true, fun s => if s = "EUR" then some (9/10) else none⟩)).2
        = true ∧
    ((resolveRate "USD" "EUR"
      (.response ⟨true, fun s => if s = "EUR" then some (9/10) else none⟩)).1
        = .fetchError ↔ (true : Bool) = false) ∧
    ((resolveRate "USD" "EUR"
      (.response ⟨true, fun s => if s = "EUR" then some (9/10) else none⟩)).1
        = .rateUnavailable ↔ (true : Bool) = true ∧
          usableRate ((fun s => if s = "EUR" then some ((9:ℚ)/10) else none)
            "EUR") = none) ∧
    (∀ q, (true : Bool) = true →
      (fun s => if s = "EUR" then some ((9:ℚ)/10) else none) "EUR" = some q →
      q ≠ 0 →
      (resolveRate "USD" "EUR"
        (.response ⟨true, fun s => if s = "EUR" then some (9/10) else none⟩)).1
          = .ok q) :=
  fiat_pair_resolution "USD" "EUR"
    ⟨true, fun s => if s = "EUR" then some (9/10) else none⟩
    (by decide) (by decide)

/-- Optional sign at the head of a character stream: the signum and the
remaining characters. -/
def parseSign : List Char → ℤ × List Char
  | '-' :: cs => (-1, cs)
  | '+' :: cs => (1, cs)
  | cs => (1, cs)

/-- Longest digit run at the head of a character stream: its value, the
number of digits consumed, and the remaining characters. -/
def parseDigits : List Char → ℕ → ℕ → ℕ × ℕ × List Char
  | [], v, n => (v, n, [])
  | c :: cs, v, n =>
    if c.isDigit then parseDigits cs (10 * v + (c.toNat - 48)) (n + 1)
    else (v, n, c :: cs)

/-- Optional exponent suffix of a decimal literal (`e5`, `E-3`, ...);
a bare `e` with no digits is not part of the literal and is ignored,
as in JS `parseFloat("1e")`. -/
def applyExp (mant : ℚ) (t : List Char) : ℚ :=
  let q1 := parseSign t
  let q2 := parseDigits q1.2 0 0
  if q2.2.1 = 0 then mant else mant * 10 ^ (q1.1 * (q2.1 : ℤ))

/-- JS `parseFloat`, modelled over `ℚ` with `none` for `NaN`: skip leading
whitespace, read an optional sign, an integer digit run, an optional
fractional digit run, and an optional exponent; `NaN` exactly when no digit
was read.  The `Infinity` literal (unreachable from the app's numeric
inputs) is outside the rational model. -/
def parseFloat (s : String) : Option ℚ :=
  let cs := s.data.dropWhile (fun c => c = ' ' || c = '\t' || c = '\n')
  let p1 := parseSign cs
  let p2 := parseDigits p1.2 0 0
  let p3 := match p2.2.2 with
    | '.' :: t => parseDigits t 0 0
    | l => (0, 0, l)
  if p2.2.1 + p3.2.1 = 0 then none
  else
    let mant : ℚ := (p1.1 : ℚ) * ((p2.1 : ℚ) + (p3.1 : ℚ) / 10 ^ p3.2.1)
    match p3.2.2 with
    | 'e' :: t => some (applyExp mant t)
    | 'E' :: t => some (applyExp mant t)
    | _ => some mant

/-- `effectiveRate` from App.tsx line 196:
`useCustomRate ? parseFloat(customRate) : exchangeRate`.
`none` is the `NaN` produced when the override text does not parse. -/
def effectiveRate (useCustomRate : Bool) (customRate : String)
    (exchangeRate : ℚ) : Option ℚ :=
  if useCustomRate then parseFloat customRate else some exchangeRate

/-- JS `Number.prototype.toFixed` on a rational, kept as the rational value
it denotes: round to `f` decimal places (ties away from zero on the
positives, as `round`). -/
def roundTo (f : ℕ) (q : ℚ) : ℚ := ((round (q * 10 ^ f) : ℤ) : ℚ) / 10 ^ f

/-- The big conversion line of the component (App.tsx lines 444-454):
either the "Please enter a valid amount" text, or the converted value
(`none` inside `converted` is the `NaN` shown when the effective rate is
`NaN`). -/
inductive ConvLine where
  | invalidMsg : ConvLine
  | converted : Option ℚ → ConvLine
deriving DecidableEq

/-- The conversion line: JS branches on the truthiness of
`parseFloat(amount)` (falsy for `NaN` and for `0`), and on the truthy
branch shows `(parseFloat(amount) * effectiveRate).toFixed(2)`. -/
def conversionLine (amount : String) (eff : Option ℚ) : ConvLine :=
  match parseFloat amount with
  | none => .invalidMsg
  | some a =>
    if a = 0 then .invalidMsg
    else .converted (eff.map (fun r => roundTo 2 (a * r)))

/-- The unit-rate line (App.tsx line 456): `effectiveRate.toFixed(4)`,
`none` when the effective rate is `NaN`. -/
def unitRateLine (eff : Option ℚ) : Option ℚ := eff.map (roundTo 4)

/-- C4 counterexample: with the override enabled and an empty override
string, the effective rate is `NaN` (`none`), not the last resolved quote
(here `1`), contradicting the claim's "equals the last resolved quote ...
when the override is enabled but its value is empty". -/
theorem effectiveRate_override_counterexample :
    effectiveRate true "" 1 = none ∧ effectiveRate true "" 1 ≠ some 1 := by
  constructor
  · decide
  · decide

/-- C4 amended: the effective rate is the parsed override when the override
is enabled and its value parses, the resolved quote when the override is
disabled, and `NaN` (no numeric value) when the override is enabled but its
value does not parse. -/
theorem effectiveRate_cases (u : Bool) (c : String) (e : ℚ) :
    (∀ q, u = true → parseFloat c = some q → effectiveRate u c e = some q) ∧
    (u = false → effectiveRate u c e = some e) ∧
    (u = true → parseFloat c = none → effectiveRate u c e = none) := by
  refine ⟨?_, ?_, ?_⟩ <;> intro h <;> simp_all [effectiveRate]

/-- Witness for `effectiveRate_cases` at the override enabled with text
"2.5" and quote 1. -/
theorem effectiveRate_cases_witness :
    effectiveRate true "2.5" 1 = some (5/2) ∧
    effectiveRate false "2.5" 1 = some 1 ∧
    effectiveRate true "abc" 1 = none := by
  refine ⟨(effectiveRate_cases true "2.5" 1).1 (5/2) rfl ?_,
    (effectiveRate_cases false "2.5" 1).2.1 rfl,
    (effectiveRate_cases true "abc" 1).2.2 rfl (by decide)⟩
  simp [parseFloat, parseSign, parseDigits, Char.isDigit]
  norm_num

/-- C9: an amount that does not parse renders the "Please enter a valid
amount" message (no `NaN` in the conversion line), and an amount parsing to
a nonzero number renders the product with the effective rate rounded to 2
decimal places, with the unit-rate line rounded to 4 decimal places. -/
theorem display_amount_validation (amount : String) (eff : Option ℚ) :
    (parseFloat amount = none → conversionLine amount eff = .invalidMsg) ∧
    (∀ a r, parseFloat amount = some a → a ≠ 0 → eff = some r →
      conversionLine amount eff = .converted (some (roundTo 2 (a * r))) ∧
      unitRateLine eff = some (roundTo 4 r)) := by
  constructor
  · intro h
    simp [conversionLine, h]
  · intro a r ha ha0 heff
    subst heff
    simp [conversionLine, unitRateLine, ha, ha0]

/-- Witness for `display_amount_validation` at amount "abc" (invalid) and
amount "100" with effective rate 9/10. -/
theorem display_amount_validation_witness :
    conversionLine "abc" (some (9/10)) = .invalidMsg ∧
    conversionLine "100" (some (9/10)) =
      .converted (some (roundTo 2 (100 * (9/10)))) ∧
    unitRateLine (some (9/10)) = some (roundTo 4 (9/10)) := by
  have h100 : parseFloat "100" = some 100 := by
    simp [parseFloat, parseSign, parseDigits, Char.isDigit]
  refine ⟨(display_amount_validation "abc" (some (9/10))).1 (by decide),
    ((display_amount_validation "100" (some (9/10))).2 100 (9/10) h100
      (by norm_num) rfl).1,
    ((display_amount_validation "100" (some (9/10))).2 100 (9/10) h100
      (by norm_num) rfl).2⟩

/-- C10: any amount string parsing to the number `0` (such as `"0"`) takes
the "Please enter a valid amount" branch, because the display branches on
the truthiness of `parseFloat(amount)` and `0` is falsy. -/
theorem zero_amount_shows_invalid (amount : String) (eff : Option ℚ)
    (h : parseFloat amount = some 0) :
    conversionLine amount eff = .invalidMsg := by
  simp [conversionLine, h]

/-- Witness for `zero_amount_shows_invalid` at amount "0". -/
theorem zero_amount_shows_invalid_witness :
    conversionLine "0" (some (9/10)) = .invalidMsg :=
  zero_amount_shows_invalid "0" (some (9/10))
    (by simp [parseFloat, parseSign, parseDigits, Char.isDigit])

/-- A calendar date: proleptic Gregorian year with 1-based month and day.
JS `Date` values carry a time of day as well; the loop in
`fetchHistoricalRates` advances in whole days, so calendar days suffice. -/
structure Date where
  year : ℤ
  month : ℕ
  day : ℕ
deriving DecidableEq

/-- Gregorian leap-year test, as JS `Date` / `date-fns` observe it. -/
def isLeap (y : ℤ) : Bool := (y % 4 == 0 && y % 100 != 0) || y % 400 == 0

/-- Length of month `m` of year `y` (0 outside 1..12). -/
def monthLen (y : ℤ) : ℕ → ℕ
  | 1 => 31
  | 2 => if isLeap y then 29 else 28
  | 3 => 31
  | 4 => 30
  | 5 => 31
  | 6 => 30
  | 7 => 31
  | 8 => 31
  | 9 => 30
  | 10 => 31
  | 11 => 30
  | 12 => 31
  | _ => 0

/-- Days of year `y` that fall strictly before month `m`. -/
def daysBefore (y : ℤ) : ℕ → ℕ
  | m + 1 => daysBefore y m + monthLen y m
  | 0 => 0

/-- Leap-year count below year `y`; only differences of this count are
meaningful. -/
def leapsBefore (y : ℤ) : ℤ := (y - 1) / 4 - (y - 1) / 100 + (y - 1) / 400

/-- Position of a date in a fixed linear count of calendar days (the stand-in
for the JS `Date` timestamp, divided into days). -/
def toEpochDay (d : Date) : ℤ :=
  365 * (d.year - 1) + leapsBefore d.year + (daysBefore d.year d.month : ℤ)
    + (d.day : ℤ)

/-- A structurally valid calendar date. -/
def Date.Valid (d : Date) : Prop :=
  1 ≤ d.month ∧ d.month ≤ 12 ∧ 1 ≤ d.day ∧ d.day ≤ monthLen d.year d.month

instance (d : Date) : Decidable d.Valid := by
  unfold Date.Valid
  infer_instance

/-- The successor calendar day: the
`currentDate.setDate(currentDate.getDate() + 1)` step of the series loop. -/
def nextDay (d : Date) : Date :=
  if d.day < monthLen d.year d.month then ⟨d.year, d.month, d.day + 1⟩
  else if d.month < 12 then ⟨d.year, d.month + 1, 1⟩
  else ⟨d.year + 1, 1, 1⟩

/-- The predecessor calendar day: one step of `date-fns subDays`. -/
def prevDay (d : Date) : Date :=
  if 1 < d.day then ⟨d.year, d.month, d.day - 1⟩
  else if 1 < d.month then ⟨d.year, d.month - 1, monthLen d.year (d.month - 1)⟩
  else ⟨d.year - 1, 12, 31⟩

/-- `date-fns subDays(d, n)`: step back `n` calendar days. -/
def subDays (n : ℕ) (d : Date) : Date := prevDay^[n] d

/-- The linear month index `12 * year + (month - 1)` of a date. -/
def monthIndex (d : Date) : ℤ := 12 * d.year + (d.month : ℤ) - 1

/-- `date-fns subMonths(d, k)`: move `k` months back along the linear month
index and clamp the day-of-month to the length of the target month. -/
def subMonths (k : ℕ) (d : Date) : Date :=
  ⟨(monthIndex d - (k : ℤ)) / 12, ((monthIndex d - (k : ℤ)) % 12).toNat + 1,
    min d.day
      (monthLen ((monthIndex d - (k : ℤ)) / 12)
        (((monthIndex d - (k : ℤ)) % 12).toNat + 1))⟩

/-- `date-fns subYears(d, k)`, which is `subMonths(d, 12k)` (so Feb 29 one
year back clamps to Feb 28). -/
def subYears (k : ℕ) (d : Date) : Date := subMonths (12 * k) d

/-- `getDateRange` from App.tsx lines 94-106: the range start for the
active time range, defaulting to one week back. -/
def getDateRange (timeRange : String) (today : Date) : Date :=
  if timeRange = "1m" then subMonths 1 today
  else if timeRange = "3m" then subMonths 3 today
  else if timeRange = "1y" then subYears 1 today
  else subDays 7 today

/-- The date-collection loop of `fetchHistoricalRates` (App.tsx lines
126-132): starting from `cur`, push one day per iteration while
`currentDate <= today` (a JS timestamp comparison, modelled on day counts).
Fuel bounds the recursion; `buildDates` passes exactly enough for the loop
to run to completion. -/
def buildDatesAux (today : Date) : ℕ → Date → List Date
  | 0, _ => []
  | fuel + 1, cur =>
    if toEpochDay cur ≤ toEpochDay today then
      cur :: buildDatesAux today fuel (nextDay cur)
    else []

def buildDates (today startDate : Date) : List Date :=
  buildDatesAux today (toEpochDay today + 1 - toEpochDay startDate).toNat
    startDate

/-- One point of the simulated historical series.  The source stores the
date as a formatted `"yyyy-MM-dd"` string; the formatting is injective on
valid dates and is left out of the model. -/
structure HistPoint where
  date : Date
  rate : ℚ
deriving DecidableEq

/-- The component state (the `useState` fields the claims touch). -/
structure AppState where
  amount : String
  fromCurrency : String
  toCurrency : String
  exchangeRate : ℚ
  customRate : String
  useCustomRate : Bool
  historicalRates : List HistPoint
  timeRange : String
  loading : Bool
  error : String
deriving DecidableEq

/-- The volatility picked inside `fetchHistoricalRates` (App.tsx lines
136-140): 0.15 with a crypto leg, else 0.05. -/
def volatility (st : AppState) : ℚ :=
  if cryptoCurrencies.contains st.fromCurrency ||
      cryptoCurrencies.contains st.toCurrency then 15/100 else 5/100

/-- `fetchHistoricalRates` (App.tsx lines 124-148): collect the day range,
then map each day to `baseRate * (1 + (Math.random() * volatility * 2 -
volatility))`; `rand` stands for the successive `Math.random()` draws. -/
def fetchHistoricalRates (st : AppState) (today : Date) (rand : ℕ → ℚ) :
    List HistPoint :=
  let startDate := getDateRange st.timeRange today
  let dates := buildDates today startDate
  let baseRate := st.exchangeRate
  (dates.enum).map fun p =>
    ⟨p.2, baseRate * (1 + (rand p.1 * volatility st * 2 - volatility st))⟩

/-- One run of `fetchExchangeRate` (App.tsx lines 150-185) as a state
transition.  `net` is the outcome of the (at most one) network request.
On success the quote is replaced and the series is regenerated — reading
the closed-over, pre-update `exchangeRate`, as the JS closure does.  On
any thrown failure the catch block sets the banner text; `loading` ends
false either way, and no other field is touched on failure. -/
def fetchExchangeRate (st : AppState) (net : FetchOutcome) (today : Date)
    (rand : ℕ → ℚ) : AppState :=
  let st1 : AppState := { st with loading := true, error := "" }
  match (resolveRate st.fromCurrency st.toCurrency net).1 with
  | .ok rate =>
    { st1 with
        exchangeRate := rate
        historicalRates := fetchHistoricalRates st1 today rand
        loading := false }
  | _ =>
    { st1 with
        error := "Failed to fetch exchange rate. Please try again later."
        loading := false }

/-- `handleSwapCurrencies` (App.tsx lines 191-194): both setters read the
same pre-swap render snapshot, so the two fields are exchanged. -/
def handleSwapCurrencies (st : AppState) : AppState :=
  { st with fromCurrency := st.toCurrency, toCurrency := st.fromCurrency }

/-- C8: the swap action exchanges `fromCurrency` and `toCurrency`, and
applying it twice restores the original state. -/
theorem swap_exchanges (st : AppState) :
    (handleSwapCurrencies st).fromCurrency = st.toCurrency ∧
    (handleSwapCurrencies st).toCurrency = st.fromCurrency ∧
    handleSwapCurrencies (handleSwapCurrencies st) = st :=
  ⟨rfl, rfl, rfl⟩

/-- C7: when the resolve cycle fails (network throw, non-success response,
or unusable rate), the error banner is set to exactly the generic message,
`loading` ends false, and the stored quote and historical series are left
unchanged. -/
theorem failed_fetch_state (st : AppState) (net : FetchOutcome) (today : Date)
    (rand : ℕ → ℚ)
    (h : ∀ q, (resolveRate st.fromCurrency st.toCurrency net).1 ≠ .ok q) :
    (fetchExchangeRate st net today rand).error =
      "Failed to fetch exchange rate. Please try again later." ∧
    (fetchExchangeRate st net today rand).loading = false ∧
    (fetchExchangeRate st net today rand).exchangeRate = st.exchangeRate ∧
    (fetchExchangeRate st net today rand).historicalRates =
      st.historicalRates := by
  unfold fetchExchangeRate
  rcases hres : (resolveRate st.fromCurrency st.toCurrency net).1 with
    q | _ | _ | _
  · exact absurd hres (h q)
  all_goals simp [hres]

/-- Witness for `failed_fetch_state`: a USD→EUR cycle hitting a thrown
network error. -/
theorem failed_fetch_state_witness :
    (fetchExchangeRate
        ⟨"1", "USD", "EUR", 1, "", false, [], "1w", false, ""⟩
        .netError ⟨2024, 3, 15⟩ (fun _ => 0)).error =
      "Failed to fetch exchange rate. Please try again later." ∧
    (fetchExchangeRate
        ⟨"1", "USD", "EUR", 1, "", false, [], "1w", false, ""⟩
        .netError ⟨2024, 3, 15⟩ (fun _ => 0)).loading = false ∧
    (fetchExchangeRate
        ⟨"1", "USD", "EUR", 1, "", false, [], "1w", false, ""⟩
        .netError ⟨2024, 3, 15⟩ (fun _ => 0)).exchangeRate = 1 ∧
    (fetchExchangeRate
        ⟨"1", "USD", "EUR", 1, "", false, [], "1w", false, ""⟩
        .netError ⟨2024, 3, 15⟩ (fun _ => 0)).historicalRates = [] :=
  failed_fetch_state ⟨"1", "USD", "EUR", 1, "", false, [], "1w", false, ""⟩
    .netError ⟨2024, 3, 15⟩ (fun _ => 0)
    (by
      intro q hq
      rw [show (resolveRate "USD" "EUR" .netError).1 = .networkFailure
        from by decide] at hq
      exact RateResult.noConfusion hq)

/-- C6: with every random draw in `[0, 1)` and a nonnegative base rate,
every generated point lies within `base * (1 ± volatility)`, where the
volatility is 0.15 when either leg is crypto and 0.05 otherwise. -/
theorem historical_rates_bounded (st : AppState) (today : Date)
    (rand : ℕ → ℚ) (hrand : ∀ i, 0 ≤ rand i ∧ rand i < 1)
    (hbase : 0 ≤ st.exchangeRate) :
    (∀ p ∈ fetchHistoricalRates st today rand,
      st.exchangeRate * (1 - volatility st) ≤ p.rate ∧
      p.rate ≤ st.exchangeRate * (1 + volatility st)) ∧
    (st.fromCurrency ∈ cryptoCurrencies ∨ st.toCurrency ∈ cryptoCurrencies →
      volatility st = 15/100) ∧
    (st.fromCurrency ∉ cryptoCurrencies → st.toCurrency ∉ cryptoCurrencies →
      volatility st = 5/100) := by
  refine ⟨?_, ?_, ?_⟩
  · intro p hp
    unfold fetchHistoricalRates at hp
    simp only [List.mem_map] at hp
    obtain ⟨⟨i, d⟩, hmem, rfl⟩ := hp
    obtain ⟨h0, h1⟩ := hrand i
    have hv : 0 < volatility st := by
      unfold volatility
      split <;> norm_num
    have hu0 : -volatility st ≤ rand i * volatility st * 2 - volatility st := by
      nlinarith [mul_nonneg h0 hv.le]
    have hu1 : rand i * volatility st * 2 - volatility st ≤ volatility st := by
      nlinarith [mul_nonneg hv.le (sub_nonneg.mpr h1.le)]
    constructor
    · exact mul_le_mul_of_nonneg_left (by linarith) hbase
    · exact mul_le_mul_of_nonneg_left (by linarith) hbase
  · intro h
    unfold volatility
    rcases h with h | h <;> simp [h]
  · intro h1 h2
    unfold volatility
    simp [h1, h2]

/-- Witness for `historical_rates_bounded`: the constant draw 1/2 on a
USD→EUR state with base rate 1. -/
theorem historical_rates_bounded_witness :
    (∀ p ∈ fetchHistoricalRates
        ⟨"1", "USD", "EUR", 1, "", false, [], "1w", false, ""⟩
        ⟨2024, 3, 15⟩ (fun _ => 1/2),
      (1 : ℚ) * (1 - volatility
          ⟨"1", "USD", "EUR", 1, "", false, [], "1w", false, ""⟩) ≤ p.rate ∧
      p.rate ≤ (1 : ℚ) * (1 + volatility
          ⟨"1", "USD", "EUR", 1, "", false, [], "1w", false, ""⟩)) ∧
    (("USD" : String) ∈ cryptoCurrencies ∨ ("EUR" : String) ∈ cryptoCurrencies →
      volatility ⟨"1", "USD", "EUR", 1, "", false, [], "1w", false, ""⟩
        = 15/100) ∧
    (("USD" : String) ∉ cryptoCurrencies → ("EUR" : String) ∉ cryptoCurrencies →
      volatility ⟨"1", "USD", "EUR", 1, "", false, [], "1w", false, ""⟩
        = 5/100) :=
  historical_rates_bounded
    ⟨"1", "USD", "EUR", 1, "", false, [], "1w", false, ""⟩
    ⟨2024, 3, 15⟩ (fun _ => 1/2)
    (fun _ => by norm_num) (by norm_num)

theorem leapsBefore_succ (y : ℤ) :
    leapsBefore (y + 1) = leapsBefore y + (if isLeap y then 1 else 0) := by
  unfold leapsBefore isLeap
  simp only [Bool.or_eq_true, Bool.and_eq_true, beq_iff_eq, bne_iff_ne]
  split_ifs with h
  · omega
  · omega

theorem monthLen_bounds (y : ℤ) (m : ℕ) (h1 : 1 ≤ m) (h2 : m ≤ 12) :
    28 ≤ monthLen y m ∧ monthLen y m ≤ 31 := by
  interval_cases m <;> simp only [monthLen] <;> (try split_ifs) <;> omega

theorem daysBefore_succ (y : ℤ) (m : ℕ) :
    daysBefore y (m + 1) = daysBefore y m + monthLen y m := by
  simp [daysBefore]

theorem daysBefore_one (y : ℤ) : daysBefore y 1 = 0 := rfl

theorem monthLen_twelve (y : ℤ) : monthLen y 12 = 31 := rfl

theorem daysBefore_twelve (y : ℤ) :
    daysBefore y 12 = 334 + (if isLeap y then 1 else 0) := by
  rcases h : isLeap y with _ | _ <;> simp [daysBefore, monthLen, h]

theorem nextDay_epoch (d : Date) (h : d.Valid) :
    toEpochDay (nextDay d) = toEpochDay d + 1 := by
  obtain ⟨y, m, dd⟩ := d
  obtain ⟨hm1, hm2, hd1, hd2⟩ := h
  unfold nextDay
  dsimp only at *
  split_ifs with hlt hm
  · simp only [toEpochDay]
    push_cast
    ring
  · have hday : dd = monthLen y m := le_antisymm hd2 (not_lt.mp hlt)
    subst hday
    simp only [toEpochDay, daysBefore_succ]
    push_cast
    ring
  · have hm12 : m = 12 := le_antisymm hm2 (not_lt.mp hm)
    subst hm12
    rw [monthLen_twelve] at hd2 hlt
    have hday : dd = 31 := le_antisymm hd2 (not_lt.mp hlt)
    subst hday
    simp only [toEpochDay, daysBefore_one, daysBefore_twelve, leapsBefore_succ]
    push_cast
    split_ifs <;> ring

theorem nextDay_valid (d : Date) (h : d.Valid) : (nextDay d).Valid := by
  obtain ⟨y, m, dd⟩ := d
  obtain ⟨hm1, hm2, hd1, hd2⟩ := h
  unfold nextDay
  dsimp only at *
  split_ifs with hlt hm
  · unfold Date.Valid
    dsimp only
    omega
  · unfold Date.Valid
    dsimp only
    have := monthLen_bounds y (m + 1) (by omega) (by omega)
    omega
  · unfold Date.Valid
    dsimp only
    have h31 : monthLen (y + 1) 1 = 31 := rfl
    omega

theorem prevDay_valid (d : Date) (h : d.Valid) : (prevDay d).Valid := by
  obtain ⟨y, m, dd⟩ := d
  obtain ⟨hm1, hm2, hd1, hd2⟩ := h
  unfold prevDay
  dsimp only at *
  split_ifs with hd hm
  · unfold Date.Valid
    dsimp only
    omega
  · unfold Date.Valid
    dsimp only
    have := monthLen_bounds y (m - 1) (by omega) (by omega)
    omega
  · unfold Date.Valid
    dsimp only
    have h31 : monthLen (y - 1) 12 = 31 := rfl
    omega

theorem nextDay_prevDay (d : Date) (h : d.Valid) : nextDay (prevDay d) = d := by
  obtain ⟨y, m, dd⟩ := d
  obtain ⟨hm1, hm2, hd1, hd2⟩ := h
  unfold prevDay
  dsimp only at *
  split_ifs with hd hm
  · unfold nextDay
    dsimp only
    rw [if_pos (show dd - 1 < monthLen y m by omega)]
    congr 1
    omega
  · unfold nextDay
    dsimp only
    rw [if_neg (lt_irrefl (monthLen y (m - 1))), if_pos (show m - 1 < 12 by
      omega)]
    congr 1 <;> omega
  · have hm1' : m = 1 := by omega
    have hd1' : dd = 1 := by omega
    subst hm1' hd1'
    unfold nextDay
    dsimp only
    have h31 : monthLen (y - 1) 12 = 31 := rfl
    rw [if_neg (by omega), if_neg (by omega)]
    congr 1
    omega

theorem prevDay_epoch (d : Date) (h : d.Valid) :
    toEpochDay (prevDay d) = toEpochDay d - 1 := by
  have h1 := nextDay_epoch (prevDay d) (prevDay_valid d h)
  rw [nextDay_prevDay d h] at h1
  omega

theorem subDays_valid_epoch (n : ℕ) (d : Date) (h : d.Valid) :
    (subDays n d).Valid ∧ toEpochDay (subDays n d) = toEpochDay d - n := by
  induction n with
  | zero => simpa [subDays] using h
  | succ k ih =>
    obtain ⟨hv, he⟩ := ih
    rw [subDays] at hv he ⊢
    rw [Function.iterate_succ_apply']
    refine ⟨prevDay_valid _ hv, ?_⟩
    rw [prevDay_epoch _ hv, he]
    push_cast
    ring

/-- The day count up to (not including) day 1 of linear month `i`:
`toEpochDay ⟨y, m, d⟩ = monthStart (monthIndex ⟨y, m, d⟩) + d`. -/
def monthStart (i : ℤ) : ℤ :=
  365 * (i / 12 - 1) + leapsBefore (i / 12)
    + (daysBefore (i / 12) ((i % 12).toNat + 1) : ℤ)

theorem toEpochDay_eq_monthStart (d : Date) (h1 : 1 ≤ d.month)
    (h2 : d.month ≤ 12) :
    toEpochDay d = monthStart (monthIndex d) + d.day := by
  obtain ⟨y, m, dd⟩ := d
  dsimp only at *
  unfold toEpochDay monthStart monthIndex
  dsimp only
  have hdiv : (12 * y + (m : ℤ) - 1) / 12 = y := by omega
  have hmod : ((12 * y + (m : ℤ) - 1) % 12).toNat = m - 1 := by omega
  rw [hdiv, hmod]
  have hm : m - 1 + 1 = m := by omega
  rw [hm]

theorem monthStart_succ (i : ℤ) :
    monthStart (i + 1) =
      monthStart i + (monthLen (i / 12) ((i % 12).toNat + 1) : ℤ) := by
  rcases em (i % 12 = 11) with h | h
  · have hdiv : (i + 1) / 12 = i / 12 + 1 := by omega
    have hmod : ((i + 1) % 12).toNat + 1 = 1 := by omega
    have hmod' : (i % 12).toNat + 1 = 12 := by omega
    unfold monthStart
    rw [hdiv, hmod, hmod', daysBefore_one, monthLen_twelve,
      daysBefore_twelve, leapsBefore_succ]
    push_cast
    split_ifs <;> ring
  · have hdiv : (i + 1) / 12 = i / 12 := by omega
    have hmod : ((i + 1) % 12).toNat + 1 = ((i % 12).toNat + 1) + 1 := by
      omega
    unfold monthStart
    rw [hdiv, hmod, daysBefore_succ]
    push_cast
    ring

theorem monthStart_gap (i : ℤ) (k : ℕ) :
    monthStart i + 28 * k ≤ monthStart (i + k) := by
  induction k with
  | zero => simp
  | succ n ih =>
    have hstep := monthStart_succ (i + n)
    have hml := monthLen_bounds ((i + n) / 12) (((i + n) % 12).toNat + 1)
      (by omega) (by omega)
    have hcast : (i : ℤ) + ((n : ℤ) + 1) = i + (n : ℤ) + 1 := by ring
    push_cast
    push_cast at ih
    rw [hcast, hstep]
    omega

theorem subMonths_valid (k : ℕ) (d : Date) (h : d.Valid) :
    (subMonths k d).Valid := by
  obtain ⟨y, m, dd⟩ := d
  obtain ⟨hm1, hm2, hd1, hd2⟩ := h
  unfold subMonths monthIndex Date.Valid
  dsimp only at *
  have := monthLen_bounds ((12 * y + (m : ℤ) - 1 - (k : ℤ)) / 12)
    (((12 * y + (m : ℤ) - 1 - (k : ℤ)) % 12).toNat + 1) (by omega) (by omega)
  omega

theorem monthIndex_subMonths (k : ℕ) (d : Date) :
    monthIndex (subMonths k d) = monthIndex d - k := by
  obtain ⟨y, m, dd⟩ := d
  unfold subMonths monthIndex
  dsimp only
  omega

theorem subMonths_epoch_lt (k : ℕ) (hk : 1 ≤ k) (d : Date) (h : d.Valid) :
    toEpochDay (subMonths k d) < toEpochDay d := by
  have hvalid := subMonths_valid k d h
  have hA1 := toEpochDay_eq_monthStart d h.1 h.2.1
  have hA2 := toEpochDay_eq_monthStart (subMonths k d) hvalid.1 hvalid.2.1
  rw [monthIndex_subMonths] at hA2
  have hstep := monthStart_succ (monthIndex d - k)
  have hgap := monthStart_gap (monthIndex d - k + 1) (k - 1)
  have hidx : monthIndex d - (k : ℤ) + 1 + ((k - 1 : ℕ) : ℤ) = monthIndex d := by
    omega
  rw [hidx] at hgap
  have hday_le : (subMonths k d).day ≤
      monthLen ((monthIndex d - (k : ℤ)) / 12)
        (((monthIndex d - (k : ℤ)) % 12).toNat + 1) := by
    obtain ⟨y, m, dd⟩ := d
    unfold subMonths monthIndex
    dsimp only
    exact inf_le_right
  have hday1 : 1 ≤ d.day := h.2.2.1
  rw [hA1, hA2]
  omega

theorem getDateRange_valid_le (tr : String) (today : Date)
    (h : today.Valid) :
    (getDateRange tr today).Valid ∧
    toEpochDay (getDateRange tr today) ≤ toEpochDay today := by
  unfold getDateRange
  split_ifs with h1 h3 hy
  · exact ⟨subMonths_valid 1 today h,
      le_of_lt (subMonths_epoch_lt 1 (le_refl 1) today h)⟩
  · exact ⟨subMonths_valid 3 today h,
      le_of_lt (subMonths_epoch_lt 3 (by norm_num) today h)⟩
  · unfold subYears
    exact ⟨subMonths_valid (12 * 1) today h,
      le_of_lt (subMonths_epoch_lt (12 * 1) (by norm_num) today h)⟩
  · obtain ⟨hv, he⟩ := subDays_valid_epoch 7 today h
    exact ⟨hv, by omega⟩

theorem getDateRange_default (tr : String) (today : Date) (h : today.Valid)
    (h1 : tr ≠ "1m") (h3 : tr ≠ "3m") (hy : tr ≠ "1y") :
    toEpochDay (getDateRange tr today) = toEpochDay today - 7 := by
  unfold getDateRange
  rw [if_neg h1, if_neg h3, if_neg hy]
  exact (subDays_valid_epoch 7 today h).2

theorem buildDatesAux_spec (today : Date) (n : ℕ) :
    ∀ cur : Date, cur.Valid →
      toEpochDay today + 1 - toEpochDay cur = n →
      (buildDatesAux today n cur).map toEpochDay =
        (List.range n).map (fun j : ℕ => toEpochDay cur + (j : ℤ)) := by
  induction n with
  | zero =>
    intro cur hv he
    simp [buildDatesAux]
  | succ k ih =>
    intro cur hv he
    have hnext := nextDay_epoch cur hv
    have ihh := ih (nextDay cur) (nextDay_valid cur hv) (by omega)
    simp only [buildDatesAux]
    rw [if_pos (by omega)]
    rw [List.map_cons, ihh, List.range_succ_eq_map, List.map_cons,
      List.map_map]
    congr 1
    · simp
    · congr 1
      funext j
      simp only [Function.comp_apply, hnext]
      push_cast
      ring

theorem buildDates_spec (today startDate : Date) (hs : startDate.Valid)
    (hle : toEpochDay startDate ≤ toEpochDay today) :
    (buildDates today startDate).map toEpochDay =
      (List.range ((toEpochDay today - toEpochDay startDate).toNat + 1)).map
        (fun j : ℕ => toEpochDay startDate + (j : ℤ)) := by
  have hn : (toEpochDay today + 1 - toEpochDay startDate).toNat
      = (toEpochDay today - toEpochDay startDate).toNat + 1 := by omega
  have h := buildDatesAux_spec today
    ((toEpochDay today + 1 - toEpochDay startDate).toNat) startDate hs
    (by omega)
  rw [buildDates, h, hn]

theorem series_dates (st : AppState) (today : Date) (rand : ℕ → ℚ) :
    (fetchHistoricalRates st today rand).map HistPoint.date =
      buildDates today (getDateRange st.timeRange today) := by
  unfold fetchHistoricalRates
  rw [List.map_map]
  have hcomp : (HistPoint.date ∘ fun p : ℕ × Date =>
      (⟨p.2, st.exchangeRate *
        (1 + (rand p.1 * volatility st * 2 - volatility st))⟩ : HistPoint)) =
      Prod.snd := by
    funext p
    rfl
  rw [hcomp, List.enum_map_snd]

/-- C5: for every fixed `today` and every time-range value, the generated
historical series has exactly one point per calendar day from the range
start to `today` inclusive, in ascending calendar order: the series' dates
are the dates whose day numbers are exactly the consecutive integers from
the range start's to today's, the range start is `getDateRange` (one month,
three months or one year back per the active option, with every other
value — the default `1w` included — seven days back), and the series length
is the day count of that interval. -/
theorem historical_series_days (st : AppState) (today : Date) (rand : ℕ → ℚ)
    (h : today.Valid) :
    ((fetchHistoricalRates st today rand).map HistPoint.date =
      buildDates today (getDateRange st.timeRange today)) ∧
    ((buildDates today (getDateRange st.timeRange today)).map toEpochDay =
      (List.range ((toEpochDay today -
          toEpochDay (getDateRange st.timeRange today)).toNat + 1)).map
        (fun j : ℕ =>
          toEpochDay (getDateRange st.timeRange today) + (j : ℤ))) ∧
    ((fetchHistoricalRates st today rand).length =
      (toEpochDay today - toEpochDay (getDateRange st.timeRange today)).toNat
        + 1) ∧
    toEpochDay (getDateRange st.timeRange today) ≤ toEpochDay today ∧
    List.Chain' (fun a b => toEpochDay a.date < toEpochDay b.date)
      (fetchHistoricalRates st today rand) ∧
    (st.timeRange ≠ "1m" → st.timeRange ≠ "3m" → st.timeRange ≠ "1y" →
      toEpochDay (getDateRange st.timeRange today) =
        toEpochDay today - 7) := by
  obtain ⟨hv, hle⟩ := getDateRange_valid_le st.timeRange today h
  have hmap := buildDates_spec today (getDateRange st.timeRange today) hv hle
  have hdates := series_dates st today rand
  refine ⟨hdates, hmap, ?_, hle, ?_,
    getDateRange_default st.timeRange today h⟩
  · have h1 : (fetchHistoricalRates st today rand).length
        = ((fetchHistoricalRates st today rand).map HistPoint.date).length :=
      (List.length_map _ _).symm
    rw [h1, hdates]
    have h2 := congrArg List.length hmap
    simpa using h2
  · have key := @List.chain'_map Date HistPoint
      (fun x y => toEpochDay x < toEpochDay y) HistPoint.date
      (fetchHistoricalRates st today rand)
    refine key.1 ?_
    rw [hdates]
    have key2 := @List.chain'_map ℤ Date (fun x y => x < y) toEpochDay
      (buildDates today (getDateRange st.timeRange today))
    refine key2.1 ?_
    rw [hmap, List.chain'_map]
    refine List.Pairwise.chain' ?_
    refine (List.pairwise_lt_range _).imp ?_
    intro a b hab
    omega

/-- Witness for `historical_series_days`: today = 2024-03-15 with the `1w`
range on a USD→EUR state and the constant draw 1/2. -/
theorem historical_series_days_witness :
    (⟨2024, 3, 15⟩ : Date).Valid ∧
    (((fetchHistoricalRates
        ⟨"1", "USD", "EUR", 1, "", false, [], "1w", false, ""⟩
        ⟨2024, 3, 15⟩ (fun _ => 1/2)).map HistPoint.date =
      buildDates ⟨2024, 3, 15⟩ (getDateRange "1w" ⟨2024, 3, 15⟩)) ∧
    ((buildDates ⟨2024, 3, 15⟩ (getDateRange "1w" ⟨2024, 3, 15⟩)).map
        toEpochDay =
      (List.range ((toEpochDay ⟨2024, 3, 15⟩ -
          toEpochDay (getDateRange "1w" ⟨2024, 3, 15⟩)).toNat + 1)).map
        (fun j : ℕ =>
          toEpochDay (getDateRange "1w" ⟨2024, 3, 15⟩) + (j : ℤ))) ∧
    ((fetchHistoricalRates
        ⟨"1", "USD", "EUR", 1, "", false, [], "1w", false, ""⟩
        ⟨2024, 3, 15⟩ (fun _ => 1/2)).length =
      (toEpochDay ⟨2024, 3, 15⟩ -
        toEpochDay (getDateRange "1w" ⟨2024, 3, 15⟩)).toNat + 1) ∧
    toEpochDay (getDateRange "1w" ⟨2024, 3, 15⟩) ≤
      toEpochDay ⟨2024, 3, 15⟩ ∧
    List.Chain' (fun a b => toEpochDay a.date < toEpochDay b.date)
      (fetchHistoricalRates
        ⟨"1", "USD", "EUR", 1, "", false, [], "1w", false, ""⟩
        ⟨2024, 3, 15⟩ (fun _ => 1/2)) ∧
    (("1w" : String) ≠ "1m" → ("1w" : String) ≠ "3m" →
      ("1w" : String) ≠ "1y" →
      toEpochDay (getDateRange "1w" ⟨2024, 3, 15⟩) =
        toEpochDay ⟨2024, 3, 15⟩ - 7)) :=
  ⟨by decide,
    historical_series_days
      ⟨"1", "USD", "EUR", 1, "", false, [], "1w", false, ""⟩
      ⟨2024, 3, 15⟩ (fun _ => 1/2) (by decide)⟩
